import Mathlib

/-!
Verification of the PDF Toolkit extension core (page-range parsing,
extraction reconciliation, extraction history, embedded-image discovery,
and the panel registry), shallowly embedded from the TypeScript source
(`pdfEditorProvider.ts`).  JavaScript strings are modelled as `String`,
JavaScript integers as `Int`/`Nat` (the source never exceeds exact float
range in the quantities modelled here), the file system as an association
list from file name to content, and the VS Code prompt API as an explicit
user-choice parameter.
-/

namespace PdfToolkit

/-! ## JavaScript string and number primitives used by the source -/

/-- Characters removed by JavaScript `String.prototype.trim`
(ASCII whitespace plus no-break space and BOM). -/
def isJsWhitespace (c : Char) : Bool :=
  c = ' ' || c = '\t' || c = '\n' || c = '\r' || c = '\x0b' || c = '\x0c' ||
  c = '\u00A0' || c = '\uFEFF'

/-- JavaScript `s.trim()`. -/
def jsTrim (s : String) : String :=
  String.mk (((s.toList.dropWhile isJsWhitespace).reverse.dropWhile isJsWhitespace).reverse)

/-- Splitting a character list at every occurrence of `sep`
(JavaScript `s.split(sep)` for a one-character separator). -/
def splitOnChar (sep : Char) : List Char → List (List Char)
  | [] => [[]]
  | c :: rest =>
    let r := splitOnChar sep rest
    if c = sep then [] :: r
    else
      match r with
      | [] => [[c]]
      | h :: t => (c :: h) :: t

/-- JavaScript `s.split(sep)` for a one-character separator. -/
def jsSplit (s : String) (sep : Char) : List String :=
  (splitOnChar sep s.toList).map (fun cs => String.mk cs)

/-- JavaScript `s.includes(c)` for a single character. -/
def jsIncludes (s : String) (c : Char) : Bool :=
  s.toList.contains c

/-- Value of a decimal digit character. -/
def digitVal (c : Char) : Option Nat :=
  if '0' ≤ c ∧ c ≤ '9' then some (c.toNat - '0'.toNat) else none

/-- Value of a hexadecimal digit character. -/
def hexVal (c : Char) : Option Nat :=
  if '0' ≤ c ∧ c ≤ '9' then some (c.toNat - '0'.toNat)
  else if 'a' ≤ c ∧ c ≤ 'f' then some (c.toNat - 'a'.toNat + 10)
  else if 'A' ≤ c ∧ c ≤ 'F' then some (c.toNat - 'A'.toNat + 10)
  else none

/-- Value of the longest digit-valued character sequence at the front of `cs`
(`none` if there is no leading digit, matching `NaN`). -/
def digitsValue (base : Nat) (val : Char → Option Nat) (cs : List Char) : Option Nat :=
  let ds := cs.takeWhile (fun c => (val c).isSome)
  if ds.isEmpty then none
  else some (ds.foldl (fun acc c => acc * base + ((val c).getD 0)) 0)

/-- JavaScript `parseInt(s)` with no radix argument: skip leading whitespace,
read an optional sign, use base 16 after a `0x`/`0X` marker and base 10
otherwise, and take the value of the longest digit sequence that follows;
`none` models `NaN`.  (Values are kept exact rather than rounded to float.) -/
def jsParseInt (s : String) : Option Int :=
  let cs := s.toList.dropWhile isJsWhitespace
  let signed : Int × List Char :=
    match cs with
    | '-' :: rest => (-1, rest)
    | '+' :: rest => (1, rest)
    | _ => (1, cs)
  match signed.2 with
  | '0' :: 'x' :: rest => (digitsValue 16 hexVal rest).map (fun n => signed.1 * n)
  | '0' :: 'X' :: rest => (digitsValue 16 hexVal rest).map (fun n => signed.1 * n)
  | cs1 => (digitsValue 10 digitVal cs1).map (fun n => signed.1 * n)

/-! ## Page-range parser (`parsePageRange`) -/

/-- One `pages.add(i)` step of the source: a JavaScript `Set` preserves
insertion order and ignores a value that is already present. -/
def insertPage (l : List Nat) (p : Nat) : List Nat :=
  if p ∈ l then l else l ++ [p]

/-- The pages contributed by the loop
`for (let i = Math.max(1, start); i <= Math.min(maxPage, end); i++)`. -/
def rangeNats (maxPage : Nat) (start endv : Int) : List Nat :=
  let lo : Int := max 1 start
  let hi : Int := min (maxPage : Int) endv
  if lo ≤ hi then List.range' lo.toNat (hi + 1 - lo).toNat else []

/-- Processing of a single comma-separated token of the range string
(the body of the `for (const part of parts)` loop in `parsePageRange`). -/
def addToken (maxPage : Nat) (acc : List Nat) (part : String) : List Nat :=
  let trimmed := jsTrim part
  if jsIncludes trimmed '-' then
    match (jsSplit trimmed '-').map (fun s => jsParseInt (jsTrim s)) with
    | some start :: some endv :: _ => (rangeNats maxPage start endv).foldl insertPage acc
    | _ => acc
  else
    match jsParseInt trimmed with
    | some p => if 1 ≤ p ∧ p ≤ (maxPage : Int) then insertPage acc p.toNat else acc
    | none => acc

/-- `parsePageRange` on an already-split token list: accumulate the page set
over the tokens, then sort ascending (`Array.from(pages).sort((a, b) => a - b)`). -/
def parsePageRangeTokens (parts : List String) (maxPage : Nat) : List Nat :=
  List.insertionSort (fun a b => a ≤ b) (parts.foldl (addToken maxPage) [])

/-- `parsePageRange(rangeStr, maxPage)` from `pdfEditorProvider.ts`. -/
def parsePageRange (rangeStr : String) (maxPage : Nat) : List Nat :=
  parsePageRangeTokens (jsSplit rangeStr ',') maxPage

/-- A token that fails to parse as an integer: for a hyphenated token, one of
its first two hyphen-separated parts is `NaN`; otherwise the token itself is
`NaN` under `parseInt`. -/
def tokenNonNumeric (t : String) : Bool :=
  let trimmed := jsTrim t
  if jsIncludes trimmed '-' then
    match (jsSplit trimmed '-').map (fun s => jsParseInt (jsTrim s)) with
    | some _ :: some _ :: _ => false
    | _ => true
  else (jsParseInt trimmed).isNone

/-! ## Parser lemmas -/

/-- Invariant maintained by the page set accumulated in `parsePageRange`:
no duplicates, and every member lies in `[1, maxPage]`. -/
def pagesInv (maxPage : Nat) (l : List Nat) : Prop :=
  l.Nodup ∧ ∀ n ∈ l, 1 ≤ n ∧ n ≤ maxPage

theorem mem_insertPage {l : List Nat} {p x : Nat} :
    x ∈ insertPage l p ↔ x ∈ l ∨ x = p := by
  unfold insertPage
  split
  · next hp =>
    constructor
    · exact Or.inl
    · rintro (h | rfl)
      · exact h
      · exact hp
  · simp

theorem insertPage_nodup {l : List Nat} {p : Nat} (h : l.Nodup) :
    (insertPage l p).Nodup := by
  unfold insertPage
  split
  · exact h
  · next hp =>
    exact (List.perm_append_singleton p l).nodup_iff.mpr (List.nodup_cons.mpr ⟨hp, h⟩)

theorem foldl_insertPage_inv {m : Nat} :
    ∀ (xs acc : List Nat), pagesInv m acc → (∀ x ∈ xs, 1 ≤ x ∧ x ≤ m) →
      pagesInv m (xs.foldl insertPage acc)
  | [], _, h, _ => h
  | x :: xs, acc, h, hx => by
    simp only [List.foldl_cons]
    refine foldl_insertPage_inv xs _ ⟨insertPage_nodup h.1, ?_⟩
      (fun y hy => hx y (List.mem_cons_of_mem _ hy))
    intro n hn
    rcases mem_insertPage.mp hn with h' | rfl
    · exact h.2 n h'
    · exact hx _ (List.mem_cons_self _ _)

theorem rangeNats_bounds {m : Nat} {s e : Int} {x : Nat} (h : x ∈ rangeNats m s e) :
    1 ≤ x ∧ x ≤ m := by
  simp only [rangeNats] at h
  split at h
  · next hle =>
    rcases List.mem_range'.mp h with ⟨i, hi, rfl⟩
    omega
  · simp at h

theorem addToken_inv {m : Nat} {acc : List Nat} (t : String) (h : pagesInv m acc) :
    pagesInv m (addToken m acc t) := by
  simp only [addToken]
  split
  · split
    · exact foldl_insertPage_inv _ _ h (fun x hx => rangeNats_bounds hx)
    · exact h
  · split
    · next p hp =>
      split
      · next hcond =>
        refine ⟨insertPage_nodup h.1, ?_⟩
        intro n hn
        rcases mem_insertPage.mp hn with h' | rfl
        · exact h.2 n h'
        · omega
      · exact h
    · exact h

theorem foldl_addToken_inv {m : Nat} :
    ∀ (parts : List String) (acc : List Nat), pagesInv m acc →
      pagesInv m (parts.foldl (addToken m) acc)
  | [], _, h => h
  | t :: parts, acc, h => by
    simp only [List.foldl_cons]
    exact foldl_addToken_inv parts _ (addToken_inv t h)

theorem addToken_nonNumeric (m : Nat) (acc : List Nat) (t : String)
    (h : tokenNonNumeric t = true) : addToken m acc t = acc := by
  simp only [tokenNonNumeric] at h
  simp only [addToken]
  by_cases hc : jsIncludes (jsTrim t) '-' = true
  · simp only [hc, if_true] at h ⊢
    rcases hm : (jsSplit (jsTrim t) '-').map (fun s => jsParseInt (jsTrim s)) with _ | ⟨o1, rest⟩
    · simp [hm]
    · rcases o1 with _ | v1
      · simp [hm]
      · rcases rest with _ | ⟨o2, rest2⟩
        · simp [hm]
        · rcases o2 with _ | v2
          · simp [hm]
          · rw [hm] at h
            simp at h
  · simp only [hc, if_false] at h ⊢
    simp only [Bool.not_eq_true] at hc
    simp only [hc, Bool.false_eq_true, if_false] at h ⊢
    simp only [Option.isNone_iff_eq_none] at h
    simp [h]

/-! ## Claims about the page-range parser -/

/-- C2: for every input string and every `maxPage`, `parsePageRange` returns a
list that is sorted in strictly ascending order, has no duplicates, and whose
every element `n` satisfies `1 ≤ n ≤ maxPage`. -/
theorem parsePageRange_sorted_nodup_bounded (s : String) (m : Nat) :
    (parsePageRange s m).Pairwise (· < ·) ∧ (parsePageRange s m).Nodup ∧
      ∀ n ∈ parsePageRange s m, 1 ≤ n ∧ n ≤ m := by
  have hbase : pagesInv m ((jsSplit s ',').foldl (addToken m) []) :=
    foldl_addToken_inv _ _ ⟨List.nodup_nil, by simp⟩
  have hperm := List.perm_insertionSort (fun a b => a ≤ b) ((jsSplit s ',').foldl (addToken m) [])
  have hsorted := List.sorted_insertionSort (fun a b => a ≤ b) ((jsSplit s ',').foldl (addToken m) [])
  have hnodup : (parsePageRange s m).Nodup := hperm.nodup_iff.mpr hbase.1
  have hne : (parsePageRange s m).Pairwise (· ≠ ·) := hnodup
  refine ⟨(List.Pairwise.and hsorted hne).imp ?_, hnodup, ?_⟩
  · exact fun h => lt_of_le_of_ne h.1 h.2
  · intro n hn
    exact hbase.2 n (hperm.mem_iff.mp hn)

/-- Witness for C2 at the concrete input `parsePageRange "3" 5`. -/
theorem parsePageRange_sorted_nodup_bounded_witness : 1 ≤ 3 ∧ 3 ≤ 5 :=
  (parsePageRange_sorted_nodup_bounded "3" 5).2.2 3 (by decide)

/-- C8: the parser satisfies the spec's concrete test vectors:
`parsePageRange "1,3,5-10" 12 = [1,3,5,6,7,8,9,10]` and
`parsePageRange "5-2" 10 = []` (a reversed range contributes no pages). -/
theorem parsePageRange_spec_vectors :
    parsePageRange "1,3,5-10" 12 = [1, 3, 5, 6, 7, 8, 9, 10] ∧
      parsePageRange "5-2" 10 = [] :=
  ⟨by decide, by decide⟩

/-- C9: a comma-separated token that fails to parse as an integer is silently
skipped: inserting such a token anywhere in the token list does not change the
result of the parse (and the parser is a total function, so no input raises an
error). -/
theorem parsePageRange_skips_nonNumeric (m : Nat) (t : String) (pre post : List String)
    (h : tokenNonNumeric t = true) :
    parsePageRangeTokens (pre ++ t :: post) m = parsePageRangeTokens (pre ++ post) m := by
  unfold parsePageRangeTokens
  rw [List.foldl_append, List.foldl_append, List.foldl_cons, addToken_nonNumeric m _ t h]

/-- Witness for C9: the non-numeric token `"abc"` between `"1"` and `"3"`
contributes nothing. -/
theorem parsePageRange_skips_nonNumeric_witness :
    parsePageRangeTokens (["1"] ++ "abc" :: ["3"]) 5 =
      parsePageRangeTokens (["1"] ++ ["3"]) 5 :=
  parsePageRange_skips_nonNumeric 5 "abc" ["1"] ["3"] (by decide)

/-! ## File-system model

The output directory is modelled as an association list from file name to
file content; `stat` is a key lookup and `writeFile` replaces the first
binding of the name or appends a fresh one. -/

/-- The contents of the output directory: file name, file content. -/
abbrev Fs := List (String × String)

/-- Whether a file with the given name exists (a successful `stat`). -/
def containsFs : Fs → String → Bool
  | [], _ => false
  | e :: rest, n => e.1 = n || containsFs rest n

/-- The content of the named file, if present. -/
def lookupFs : Fs → String → Option String
  | [], _ => none
  | e :: rest, n => if e.1 = n then some e.2 else lookupFs rest n

/-- `workspace.fs.writeFile`: replace the named file's content, or create it. -/
def writeFs : Fs → String → String → Fs
  | [], n, c => [(n, c)]
  | e :: rest, n, c => if e.1 = n then (n, c) :: rest else e :: writeFs rest n c

/-! ## Extraction history (`addExtractedPdf` / `removeExtractedPdf`)

The `extractedPdfs` list kept in `workspaceState` is modelled as a list of
entries; the `new Date().toISOString()` timestamp is an explicit parameter. -/

/-- One entry of the `extractedPdfs` workspace-state list. -/
structure HistEntry where
  name : String
  path : String
  pageCount : Nat
  extractedAt : String
deriving DecidableEq

/-- `addExtractedPdf(name, outputPath, pageCount)`: find the index of an entry
with this name (`findIndex`), overwrite it if found, append otherwise.
(JavaScript `findIndex` returns `-1` when absent; `List.findIdx` returns the
length, so `existing >= 0` becomes `existing < hist.length`.) -/
def addExtractedPdf (hist : List HistEntry) (name outputPath : String)
    (pageCount : Nat) (now : String) : List HistEntry :=
  let entry : HistEntry := ⟨name, outputPath, pageCount, now⟩
  let existing := hist.findIdx (fun p => p.name == name)
  if existing < hist.length then hist.set existing entry else hist ++ [entry]

/-- `removeExtractedPdf(name)`: keep the entries whose name differs. -/
def removeExtractedPdf (hist : List HistEntry) (name : String) : List HistEntry :=
  hist.filter (fun p => p.name != name)

/-- An operation on the extraction-history list. -/
inductive HistOp where
  | add (name outputPath : String) (pageCount : Nat) (now : String)
  | remove (name : String)

/-- Apply one history operation. -/
def applyHistOp (hist : List HistEntry) : HistOp → List HistEntry
  | .add n p c t => addExtractedPdf hist n p c t
  | .remove n => removeExtractedPdf hist n

/-- Apply a sequence of history operations, first first. -/
def applyHistOps (hist : List HistEntry) (ops : List HistOp) : List HistEntry :=
  ops.foldl applyHistOp hist

/-! ## Page-extraction reconciler (`saveExtractedPages`) -/

/-- One page payload received from the webview (`{ page, data }`). -/
structure PageData where
  page : Nat
  data : String
deriving DecidableEq

/-- The user's response to a conflict prompt.  `saveExtractedPages` shows at
most one warning prompt per run; choices that are not offered by the prompt
that is actually shown behave like dismissing it (`action` is `undefined`). -/
inductive Choice where
  | openFolder
  | overwriteAll
  | extractNewOnly
  | cancel
  | dismiss
deriving DecidableEq

/-- `n.toString().padStart(3, '0')`. -/
def pad3 (n : Nat) : String :=
  let s := toString n
  if s.length < 3 then String.mk (List.replicate (3 - s.length) '0') ++ s else s

/-- The deterministic target file name `page_NNN.<format>` of a page. -/
def pageFileName (format : String) (page : Nat) : String :=
  "page_" ++ pad3 page ++ "." ++ format

/-- Result of a `saveExtractedPages` run: the directory contents and history
afterwards, the file names written (in order), and whether a conflict warning
prompt was shown. -/
structure SaveResult where
  fs : Fs
  hist : List HistEntry
  written : List String
  promptShown : Bool
deriving DecidableEq

/-- The first loop of `saveExtractedPages`: `stat` each page's target name,
collecting the names that exist (`existingFiles`) and the page payloads whose
target is absent (`newPages`), in request order. -/
def partitionPages (fs : Fs) (format : String) : List PageData → List String × List PageData
  | [] => ([], [])
  | pd :: rest =>
    let fn := pageFileName format pd.page
    let r := partitionPages fs format rest
    if containsFs fs fn then (fn :: r.1, r.2) else (r.1, pd :: r.2)

/-- The "Overwrite All" loop of the some-exist branch: push back every
requested page whose file name is in `existingFiles` and whose page number is
not already among the pending pages. -/
def readdExisting (format : String) (existingFiles : List String)
    (pages newPages : List PageData) : List PageData :=
  pages.foldl
    (fun np pd =>
      let fn := pageFileName format pd.page
      if existingFiles.contains fn && !(np.any (fun p => p.page == pd.page))
      then np ++ [pd] else np)
    newPages

/-- The write loop of `saveExtractedPages`: write each pending page's payload
to its target name in order, returning the final directory contents and the
file names written. -/
def writePages (format : String) : Fs → List PageData → Fs × List String
  | fs, [] => (fs, [])
  | fs, pd :: rest =>
    let fn := pageFileName format pd.page
    let r := writePages format (writeFs fs fn pd.data) rest
    (r.1, fn :: r.2)

/-- The tail of `saveExtractedPages`: if the write-set is empty, report
"No new pages to extract." and stop; otherwise write every page and upsert the
history entry with `existingFiles.length + savedFiles.length` as page count. -/
def writeAndRecord (fs : Fs) (hist : List HistEntry) (newPages : List PageData)
    (format pdfName outputDir now : String) (existingFiles : List String)
    (prompted : Bool) : SaveResult :=
  if newPages.isEmpty then ⟨fs, hist, [], prompted⟩
  else
    let step := writePages format fs newPages
    let hist' := addExtractedPdf hist pdfName outputDir
      (existingFiles.length + step.2.length) now
    ⟨step.1, hist', step.2, prompted⟩

/-- `saveExtractedPages(document, pages, format)` from `pdfEditorProvider.ts`,
with the file system, history list, user choice, document base name, output
directory and clock as explicit parameters. -/
def saveExtractedPages (fs : Fs) (hist : List HistEntry) (pages : List PageData)
    (format : String) (choice : Choice) (pdfName outputDir now : String) :
    SaveResult :=
  let part := partitionPages fs format pages
  let existingFiles := part.1
  let newPages := part.2
  if existingFiles.length = pages.length then
    if choice = Choice.openFolder then ⟨fs, hist, [], true⟩
    else if choice = Choice.overwriteAll then
      writeAndRecord fs hist (newPages ++ pages) format pdfName outputDir now existingFiles true
    else ⟨fs, hist, [], true⟩
  else if 0 < existingFiles.length then
    if choice = Choice.overwriteAll then
      writeAndRecord fs hist (readdExisting format existingFiles pages newPages)
        format pdfName outputDir now existingFiles true
    else if choice = Choice.extractNewOnly then
      writeAndRecord fs hist newPages format pdfName outputDir now existingFiles true
    else ⟨fs, hist, [], true⟩
  else
    writeAndRecord fs hist newPages format pdfName outputDir now existingFiles false

/-- The page list built by `extractPages` for mode `'all'`:
`for (let i = 1; i <= totalPages; i++) pages.push(i)`. -/
def pagesForAll (totalPages : Nat) : List Nat :=
  List.range' 1 totalPages

/-- The `'all'`-mode extraction pipeline: build the full page list, refuse an
empty selection, have the (out-of-scope) renderer produce one payload per page
at the requested quality, then run `saveExtractedPages`. -/
def extractAllPages (totalPages : Nat) (render : Rat → Nat → String) (quality : Rat)
    (fs : Fs) (hist : List HistEntry) (format : String) (choice : Choice)
    (pdfName outputDir now : String) : Option SaveResult :=
  let pages := pagesForAll totalPages
  if pages.isEmpty then none
  else some (saveExtractedPages fs hist
    (pages.map (fun p => ⟨p, render quality p⟩)) format choice pdfName outputDir now)

/-! ## Reconciler lemmas -/

theorem partitionPages_all_exist {fs : Fs} {format : String} :
    ∀ {pages : List PageData},
      (∀ pd ∈ pages, containsFs fs (pageFileName format pd.page) = true) →
      partitionPages fs format pages =
        (pages.map (fun pd => pageFileName format pd.page), [])
  | [], _ => rfl
  | pd :: rest, h => by
    have hrest := partitionPages_all_exist
      (fun q hq => h q (List.mem_cons_of_mem _ hq))
    simp only [partitionPages, hrest, h pd (List.mem_cons_self _ _), if_true, List.map_cons]

theorem partitionPages_none_exist {fs : Fs} {format : String} :
    ∀ {pages : List PageData},
      (∀ pd ∈ pages, containsFs fs (pageFileName format pd.page) = false) →
      partitionPages fs format pages = ([], pages)
  | [], _ => rfl
  | pd :: rest, h => by
    have hrest := partitionPages_none_exist
      (fun q hq => h q (List.mem_cons_of_mem _ hq))
    simp only [partitionPages, hrest, h pd (List.mem_cons_self _ _),
      Bool.false_eq_true, if_false]

theorem writePages_names {format : String} :
    ∀ (pages : List PageData) (fs : Fs),
      (writePages format fs pages).2 = pages.map (fun pd => pageFileName format pd.page)
  | [], _ => rfl
  | pd :: rest, fs => by
    simp only [writePages, writePages_names rest, List.map_cons]

theorem containsFs_writeFs :
    ∀ (fs : Fs) (n c m : String),
      containsFs (writeFs fs n c) m = true ↔ (containsFs fs m = true ∨ n = m)
  | [], n, c, m => by simp [containsFs, writeFs]
  | e :: rest, n, c, m => by
    simp only [writeFs]
    split
    · next he =>
      subst he
      simp only [containsFs, Bool.or_eq_true, decide_eq_true_iff]
      tauto
    · simp only [containsFs, Bool.or_eq_true, decide_eq_true_iff,
        containsFs_writeFs rest n c m]
      tauto

theorem writePages_contains_mono {format : String} :
    ∀ (pages : List PageData) (fs : Fs) (n : String),
      containsFs fs n = true → containsFs (writePages format fs pages).1 n = true
  | [], _, _, h => h
  | q :: rest, fs, n, h => by
    simp only [writePages]
    exact writePages_contains_mono rest _ n (by rw [containsFs_writeFs, h]; simp)

theorem writePages_contains_of_written {format : String} :
    ∀ (pages : List PageData) (fs : Fs) (pd : PageData), pd ∈ pages →
      containsFs (writePages format fs pages).1 (pageFileName format pd.page) = true
  | [], _, _, h => absurd h (List.not_mem_nil _)
  | q :: rest, fs, pd, h => by
    simp only [writePages]
    rcases List.mem_cons.mp h with rfl | h'
    · exact writePages_contains_mono rest _ _
        ((containsFs_writeFs _ _ _ _).mpr (Or.inr rfl))
    · exact writePages_contains_of_written rest _ pd h'

/-- When every requested page's target file already exists and the user does
not choose "Overwrite All", `saveExtractedPages` shows the conflict prompt and
leaves everything unchanged. -/
theorem saveExtractedPages_all_exist (fs : Fs) (hist : List HistEntry)
    (pages : List PageData) (format : String) (choice : Choice)
    (pdfName outputDir now : String)
    (hall : ∀ pd ∈ pages, containsFs fs (pageFileName format pd.page) = true)
    (hc : choice ≠ Choice.overwriteAll) :
    saveExtractedPages fs hist pages format choice pdfName outputDir now =
      ⟨fs, hist, [], true⟩ := by
  simp only [saveExtractedPages, partitionPages_all_exist hall, List.length_map,
    reduceIte]
  rw [if_neg hc]
  split <;> rfl

/-- When no requested page's target file exists and the request is nonempty,
`saveExtractedPages` prompts nothing and writes every page, recording the
written count in the history. -/
theorem saveExtractedPages_none_exist (fs : Fs) (hist : List HistEntry)
    (pages : List PageData) (format : String) (choice : Choice)
    (pdfName outputDir now : String)
    (hnone : ∀ pd ∈ pages, containsFs fs (pageFileName format pd.page) = false)
    (hne : pages ≠ []) :
    saveExtractedPages fs hist pages format choice pdfName outputDir now =
      ⟨(writePages format fs pages).1,
       addExtractedPdf hist pdfName outputDir
         ((writePages format fs pages).2.length) now,
       (writePages format fs pages).2, false⟩ := by
  have hlen : ¬(([] : List String).length = pages.length) := by
    simpa using fun hzero => hne (List.length_eq_zero.mp hzero.symm)
  have hlt : ¬(0 < ([] : List String).length) := by simp
  have hempty : ¬(pages.isEmpty = true) := fun habs => hne (by simpa using habs)
  simp only [saveExtractedPages, partitionPages_none_exist hnone]
  rw [if_neg hlen, if_neg hlt]
  simp only [writeAndRecord]
  rw [if_neg hempty]
  simp

/-! ## History lemmas -/

theorem listSet_getElem_self {α : Type _} (l : List α) (i : Nat) (a : α)
    (hi : i < l.length) (ha : l[i] = a) : l.set i a = l := by
  apply List.ext_getElem
  · simp
  · intro n h1 h2
    rw [List.getElem_set]
    split
    · next hn =>
      subst hn
      exact ha.symm
    · rfl

theorem addExtractedPdf_mem (hist : List HistEntry) (name outputPath : String)
    (pageCount : Nat) (now : String) :
    (⟨name, outputPath, pageCount, now⟩ : HistEntry) ∈
      addExtractedPdf hist name outputPath pageCount now := by
  simp only [addExtractedPdf]
  split
  · next hlt =>
    have h2 : hist.findIdx (fun p => p.name == name) <
        (hist.set (hist.findIdx (fun p => p.name == name))
          (⟨name, outputPath, pageCount, now⟩ : HistEntry)).length := by
      simpa using hlt
    have hmem := List.getElem_mem h2
    rwa [List.getElem_set_self h2] at hmem
  · exact List.mem_append_right _ (List.mem_singleton_self _)

theorem addExtractedPdf_names_of_mem (hist : List HistEntry) (name outputPath : String)
    (pageCount : Nat) (now : String) (h : name ∈ hist.map HistEntry.name) :
    (addExtractedPdf hist name outputPath pageCount now).map HistEntry.name =
      hist.map HistEntry.name := by
  simp only [addExtractedPdf]
  have hex : ∃ x ∈ hist, (fun p => p.name == name) x = true := by
    rcases List.mem_map.mp h with ⟨e, he, hn⟩
    exact ⟨e, he, by simp [hn]⟩
  have hlt := List.findIdx_lt_length_of_exists hex
  rw [if_pos hlt, List.map_set]
  have hbound : hist.findIdx (fun p => p.name == name) <
      (hist.map HistEntry.name).length := by
    simpa using hlt
  refine listSet_getElem_self _ _ _ hbound ?_
  have hpred := @List.findIdx_getElem _ (fun p => p.name == name) hist hlt
  simp only [List.getElem_map]
  simpa using hpred

theorem addExtractedPdf_names_nodup (hist : List HistEntry) (name outputPath : String)
    (pageCount : Nat) (now : String) (h : (hist.map HistEntry.name).Nodup) :
    ((addExtractedPdf hist name outputPath pageCount now).map HistEntry.name).Nodup := by
  by_cases hm : name ∈ hist.map HistEntry.name
  · rw [addExtractedPdf_names_of_mem hist name outputPath pageCount now hm]
    exact h
  · have hneg : ¬(hist.findIdx (fun p => p.name == name) < hist.length) := by
      intro hlt
      rcases List.findIdx_lt_length.mp hlt with ⟨x, hx, hpx⟩
      exact hm (List.mem_map.mpr ⟨x, hx, by simpa using hpx⟩)
    simp only [addExtractedPdf]
    rw [if_neg hneg, List.map_append]
    refine (List.perm_append_singleton _ _).nodup_iff.mpr ?_
    exact List.nodup_cons.mpr ⟨by simpa using hm, h⟩

theorem removeExtractedPdf_names_nodup (hist : List HistEntry) (name : String)
    (h : (hist.map HistEntry.name).Nodup) :
    ((removeExtractedPdf hist name).map HistEntry.name).Nodup :=
  ((List.filter_sublist hist).map HistEntry.name).nodup h

theorem applyHistOps_names_nodup :
    ∀ (ops : List HistOp) (hist : List HistEntry),
      (hist.map HistEntry.name).Nodup →
      ((applyHistOps hist ops).map HistEntry.name).Nodup
  | [], _, h => h
  | op :: ops, hist, h => by
    show ((applyHistOps (applyHistOp hist op) ops).map HistEntry.name).Nodup
    refine applyHistOps_names_nodup ops _ ?_
    cases op with
    | add n p c t => exact addExtractedPdf_names_nodup hist n p c t h
    | remove n => exact removeExtractedPdf_names_nodup hist n h

/-! ## Claims about the reconciler and the history -/

/-- C1 counterexample: with an empty requested page set and an empty output
directory the existing set `E` is empty (no target file exists), yet
`saveExtractedPages` takes the all-already-exist branch (`0 == 0`) and shows
the conflict prompt, contradicting the claim that an empty `E` means no
conflict prompt is shown. -/
theorem saveExtractedPages_empty_request_prompts :
    ¬((saveExtractedPages [] [] [] "png" Choice.dismiss "doc" "out" "t").promptShown
      = false) := by
  decide

/-- C1 (amended): if every requested page's target file exists (`E = S`), no
file is written and the directory is unchanged unless the user selects
"Overwrite All"; and if no requested page's target file exists (`E` empty)
and the request is nonempty, every page is written to its target name with no
conflict prompt shown. -/
theorem saveExtractedPages_reconcile (fs : Fs) (hist : List HistEntry)
    (pages : List PageData) (format : String) (choice : Choice)
    (pdfName outputDir now : String) :
    ((∀ pd ∈ pages, containsFs fs (pageFileName format pd.page) = true) →
      choice ≠ Choice.overwriteAll →
      (saveExtractedPages fs hist pages format choice pdfName outputDir now).written = [] ∧
      (saveExtractedPages fs hist pages format choice pdfName outputDir now).fs = fs) ∧
    ((∀ pd ∈ pages, containsFs fs (pageFileName format pd.page) = false) →
      pages ≠ [] →
      (saveExtractedPages fs hist pages format choice pdfName outputDir now).written =
        pages.map (fun pd => pageFileName format pd.page) ∧
      (saveExtractedPages fs hist pages format choice pdfName outputDir now).promptShown
        = false ∧
      ∀ pd ∈ pages,
        containsFs (saveExtractedPages fs hist pages format choice pdfName outputDir now).fs
          (pageFileName format pd.page) = true) := by
  constructor
  · intro hall hc
    rw [saveExtractedPages_all_exist fs hist pages format choice pdfName outputDir now hall hc]
    exact ⟨rfl, rfl⟩
  · intro hnone hne
    rw [saveExtractedPages_none_exist fs hist pages format choice pdfName outputDir now
      hnone hne]
    refine ⟨writePages_names pages fs, rfl, ?_⟩
    intro pd hpd
    exact writePages_contains_of_written pages fs pd hpd

/-- Witness for C1 (amended): a one-page request against a directory where
the target exists and the user dismisses the prompt leaves everything
unchanged; the same request against an empty directory writes the page with
no prompt. -/
theorem saveExtractedPages_reconcile_witness :
    ((saveExtractedPages [("page_001.png", "a")] [] [⟨1, "x"⟩] "png" Choice.dismiss
        "doc" "out" "t").written = [] ∧
      (saveExtractedPages [("page_001.png", "a")] [] [⟨1, "x"⟩] "png" Choice.dismiss
        "doc" "out" "t").fs = [("page_001.png", "a")]) ∧
    ((saveExtractedPages [] [] [⟨1, "x"⟩] "png" Choice.dismiss "doc" "out" "t").written =
        ["page_001.png"] ∧
      (saveExtractedPages [] [] [⟨1, "x"⟩] "png" Choice.dismiss "doc" "out"
        "t").promptShown = false) :=
  ⟨(saveExtractedPages_reconcile [("page_001.png", "a")] [] [⟨1, "x"⟩] "png"
      Choice.dismiss "doc" "out" "t").1 (by decide) (by decide),
   ((saveExtractedPages_reconcile [] [] [⟨1, "x"⟩] "png" Choice.dismiss "doc" "out"
      "t").2 (by decide) (by decide)).1,
   ((saveExtractedPages_reconcile [] [] [⟨1, "x"⟩] "png" Choice.dismiss "doc" "out"
      "t").2 (by decide) (by decide)).2.1⟩

/-- C5: if after a first `saveExtractedPages` run every requested page's
target file exists (a completed extraction), a second run of the same request
with the "Extract New Only" policy writes zero files and leaves the directory
exactly as the first run left it. -/
theorem saveExtractedPages_second_run_new_only (fs : Fs) (hist : List HistEntry)
    (pages : List PageData) (format : String) (c1 : Choice)
    (pdfName outputDir now now2 : String)
    (hcomplete : ∀ pd ∈ pages,
      containsFs (saveExtractedPages fs hist pages format c1 pdfName outputDir now).fs
        (pageFileName format pd.page) = true) :
    (saveExtractedPages
        (saveExtractedPages fs hist pages format c1 pdfName outputDir now).fs
        (saveExtractedPages fs hist pages format c1 pdfName outputDir now).hist
        pages format Choice.extractNewOnly pdfName outputDir now2).written = [] ∧
    (saveExtractedPages
        (saveExtractedPages fs hist pages format c1 pdfName outputDir now).fs
        (saveExtractedPages fs hist pages format c1 pdfName outputDir now).hist
        pages format Choice.extractNewOnly pdfName outputDir now2).fs =
      (saveExtractedPages fs hist pages format c1 pdfName outputDir now).fs := by
  rw [saveExtractedPages_all_exist _ _ _ _ _ _ _ _ hcomplete (by decide)]
  exact ⟨rfl, rfl⟩

/-- Witness for C5: extracting page 1 into an empty directory and re-running
with "Extract New Only" writes nothing the second time. -/
theorem saveExtractedPages_second_run_new_only_witness :
    (saveExtractedPages
        (saveExtractedPages [] [] [⟨1, "a"⟩] "png" Choice.dismiss "doc" "out" "t").fs
        (saveExtractedPages [] [] [⟨1, "a"⟩] "png" Choice.dismiss "doc" "out" "t").hist
        [⟨1, "a"⟩] "png" Choice.extractNewOnly "doc" "out" "t2").written = [] ∧
    (saveExtractedPages
        (saveExtractedPages [] [] [⟨1, "a"⟩] "png" Choice.dismiss "doc" "out" "t").fs
        (saveExtractedPages [] [] [⟨1, "a"⟩] "png" Choice.dismiss "doc" "out" "t").hist
        [⟨1, "a"⟩] "png" Choice.extractNewOnly "doc" "out" "t2").fs =
      (saveExtractedPages [] [] [⟨1, "a"⟩] "png" Choice.dismiss "doc" "out" "t").fs :=
  saveExtractedPages_second_run_new_only [] [] [⟨1, "a"⟩] "png" Choice.dismiss
    "doc" "out" "t" "t2" (by decide)

/-- C6: extracting all pages of a 3-page document (quality 2.0, format png)
into an empty output directory writes exactly `page_001.png`, `page_002.png`,
`page_003.png`, shows no conflict prompt, and records a history entry for the
document's name with page count 3. -/
theorem extractAllPages_three_pages (render : Rat → Nat → String)
    (hist : List HistEntry) (choice : Choice) (now : String) :
    ∃ r : SaveResult,
      extractAllPages 3 render 2 [] hist "png" choice "doc" "out" now = some r ∧
      r.written = ["page_001.png", "page_002.png", "page_003.png"] ∧
      r.promptShown = false ∧
      ∃ e ∈ r.hist, e.name = "doc" ∧ e.pageCount = 3 := by
  have hsave := saveExtractedPages_none_exist [] hist
    (List.map (fun p => (⟨p, render 2 p⟩ : PageData)) (pagesForAll 3)) "png" choice
    "doc" "out" now (fun pd _ => rfl)
    (by show List.map _ [1, 2, 3] ≠ []; simp)
  refine ⟨_, rfl, ?_, ?_, ?_⟩
  · rw [hsave, writePages_names]
    show List.map (fun pd => pageFileName "png" pd.page)
        (List.map (fun p => (⟨p, render 2 p⟩ : PageData)) [1, 2, 3]) =
      ["page_001.png", "page_002.png", "page_003.png"]
    simp only [List.map_cons, List.map_nil]
    rfl
  · rw [hsave]
  · rw [hsave]
    have hlen : (writePages "png" []
        (List.map (fun p => (⟨p, render 2 p⟩ : PageData)) (pagesForAll 3))).2.length = 3 := by
      rw [writePages_names]
      simp [pagesForAll]
    rw [hlen]
    exact ⟨⟨"doc", "out", 3, now⟩, addExtractedPdf_mem hist "doc" "out" 3 now, rfl, rfl⟩

/-- C7: starting from a history whose entry names are pairwise distinct, any
sequence of `addExtractedPdf`/`removeExtractedPdf` operations keeps the names
pairwise distinct, and `addExtractedPdf` with an already-present name
overwrites that entry (the name multiset is unchanged and the new entry is
stored) rather than appending a second one. -/
theorem extractedPdfs_unique_by_name (hist : List HistEntry) (ops : List HistOp)
    (h : (hist.map HistEntry.name).Nodup) :
    ((applyHistOps hist ops).map HistEntry.name).Nodup ∧
      ∀ (name outputPath : String) (pageCount : Nat) (now : String),
        name ∈ hist.map HistEntry.name →
        (addExtractedPdf hist name outputPath pageCount now).map HistEntry.name =
            hist.map HistEntry.name ∧
          (⟨name, outputPath, pageCount, now⟩ : HistEntry) ∈
            addExtractedPdf hist name outputPath pageCount now := by
  refine ⟨applyHistOps_names_nodup ops hist h, ?_⟩
  intro name outputPath pageCount now hm
  exact ⟨addExtractedPdf_names_of_mem hist name outputPath pageCount now hm,
    addExtractedPdf_mem hist name outputPath pageCount now⟩

/-- Witness for C7 at a concrete history and operation sequence. -/
theorem extractedPdfs_unique_by_name_witness :
    ((applyHistOps [⟨"a", "p", 1, "t"⟩]
        [HistOp.add "b" "q" 2 "t2", HistOp.remove "a"]).map HistEntry.name).Nodup ∧
      ((addExtractedPdf [⟨"a", "p", 1, "t"⟩] "a" "q" 2 "u").map HistEntry.name =
          [(⟨"a", "p", 1, "t"⟩ : HistEntry)].map HistEntry.name ∧
        (⟨"a", "q", 2, "u"⟩ : HistEntry) ∈
          addExtractedPdf [⟨"a", "p", 1, "t"⟩] "a" "q" 2 "u") :=
  ⟨(extractedPdfs_unique_by_name [⟨"a", "p", 1, "t"⟩]
      [HistOp.add "b" "q" 2 "t2", HistOp.remove "a"] (by decide)).1,
   (extractedPdfs_unique_by_name [⟨"a", "p", 1, "t"⟩]
      [HistOp.add "b" "q" 2 "t2", HistOp.remove "a"] (by decide)).2 "a" "q" 2 "u"
      (by decide)⟩

/-! ## Embedded-image discovery (`extractEmbeddedImages`, webview side)

The operator walk of the webview's `extractEmbeddedImages` is embedded over an
abstract operator list per page.  Resolution of a named image object
(`page.objs.get`, possibly asynchronous with a timeout, followed by
`resolveImageData`) is the out-of-scope rendering seam and is modelled as an
oracle from page number and resource name to an optional resolved image;
`none` covers a missing object, a timeout, a thrown error, and a `null`
result of `resolveImageData` alike.  Inline images carry their (optionally
resolvable) payload directly in the operator. -/

/-- A resolved raster image: pixel dimensions and the encoded data URL. -/
structure ResolvedImage where
  width : Nat
  height : Nat
  dataUrl : String
deriving DecidableEq

/-- The paint operations inspected by the scan; everything else is `other`. -/
inductive PdfOp where
  | paintImageXObject (name : String)
  | paintJpegXObject (name : String)
  | paintImageXObjectRepeat (name : String)
  | paintInlineImageXObject (resolved : Option ResolvedImage)
  | other
deriving DecidableEq

/-- One record of the `extractedImages` output
(`{ index, page, width, height, data }`). -/
structure ImageRecord where
  index : Nat
  page : Nat
  width : Nat
  height : Nat
  data : String
deriving DecidableEq

/-- The operator loop of `extractEmbeddedImages` on one page: walk the
operators, skipping XObject names already processed on this page, resolving
each image, and emitting a record (with the next global index) only when the
resolved width and height are both strictly above 10 pixels. -/
def scanOps (resolve : Nat → String → Option ResolvedImage) (pageNum : Nat) :
    List PdfOp → List String → Nat → List ImageRecord → Nat × List ImageRecord
  | [], _, idx, recs => (idx, recs)
  | op :: rest, processed, idx, recs =>
    match op with
    | .paintImageXObject n | .paintJpegXObject n | .paintImageXObjectRepeat n =>
      if n ∈ processed then scanOps resolve pageNum rest processed idx recs
      else
        match resolve pageNum n with
        | some r =>
          if 10 < r.width ∧ 10 < r.height then
            scanOps resolve pageNum rest (n :: processed) (idx + 1)
              (recs ++ [⟨idx + 1, pageNum, r.width, r.height, r.dataUrl⟩])
          else scanOps resolve pageNum rest (n :: processed) idx recs
        | none => scanOps resolve pageNum rest (n :: processed) idx recs
    | .paintInlineImageXObject ro =>
      match ro with
      | some r =>
        if 10 < r.width ∧ 10 < r.height then
          scanOps resolve pageNum rest processed (idx + 1)
            (recs ++ [⟨idx + 1, pageNum, r.width, r.height, r.dataUrl⟩])
        else scanOps resolve pageNum rest processed idx recs
      | none => scanOps resolve pageNum rest processed idx recs
    | .other => scanOps resolve pageNum rest processed idx recs

/-- The page loop of `extractEmbeddedImages`: pages are scanned in ascending
order starting at page 1, with a fresh processed-name set per page and a
global image index threaded through. -/
def scanPages (resolve : Nat → String → Option ResolvedImage) :
    List (List PdfOp) → Nat → Nat → List ImageRecord → List ImageRecord
  | [], _, _, recs => recs
  | ops :: rest, pageNum, idx, recs =>
    let r := scanOps resolve pageNum ops [] idx recs
    scanPages resolve rest (pageNum + 1) r.1 r.2

/-- `extractEmbeddedImages` over a document given as one operator list per
page: the emitted `extractedImages` output. -/
def extractEmbeddedImages (pages : List (List PdfOp))
    (resolve : Nat → String → Option ResolvedImage) : List ImageRecord :=
  scanPages resolve pages 1 0 []

theorem scanOps_min_size {resolve : Nat → String → Option ResolvedImage}
    {pageNum : Nat} :
    ∀ (ops : List PdfOp) (processed : List String) (idx : Nat)
      (recs : List ImageRecord),
      (∀ rec ∈ recs, 10 < rec.width ∧ 10 < rec.height) →
      ∀ rec ∈ (scanOps resolve pageNum ops processed idx recs).2,
        10 < rec.width ∧ 10 < rec.height
  | [], _, _, _, h => h
  | op :: rest, processed, idx, recs, h => by
    have hkeep : ∀ (r : ResolvedImage), 10 < r.width ∧ 10 < r.height →
        ∀ rec ∈ recs ++ [(⟨idx + 1, pageNum, r.width, r.height, r.dataUrl⟩ : ImageRecord)],
          10 < rec.width ∧ 10 < rec.height := by
      intro r hr rec hrec
      rcases List.mem_append.mp hrec with hrec | hrec
      · exact h rec hrec
      · rw [List.mem_singleton.mp hrec]
        exact hr
    cases op with
    | paintImageXObject n =>
      simp only [scanOps]
      split
      · exact scanOps_min_size rest processed idx recs h
      · split
        · next r hres =>
          split
          · next hsz => exact scanOps_min_size rest _ _ _ (hkeep r hsz)
          · exact scanOps_min_size rest _ idx recs h
        · exact scanOps_min_size rest _ idx recs h
    | paintJpegXObject n =>
      simp only [scanOps]
      split
      · exact scanOps_min_size rest processed idx recs h
      · split
        · next r hres =>
          split
          · next hsz => exact scanOps_min_size rest _ _ _ (hkeep r hsz)
          · exact scanOps_min_size rest _ idx recs h
        · exact scanOps_min_size rest _ idx recs h
    | paintImageXObjectRepeat n =>
      simp only [scanOps]
      split
      · exact scanOps_min_size rest processed idx recs h
      · split
        · next r hres =>
          split
          · next hsz => exact scanOps_min_size rest _ _ _ (hkeep r hsz)
          · exact scanOps_min_size rest _ idx recs h
        · exact scanOps_min_size rest _ idx recs h
    | paintInlineImageXObject ro =>
      cases ro with
      | some r =>
        simp only [scanOps]
        split
        · next hsz => exact scanOps_min_size rest _ _ _ (hkeep r hsz)
        · exact scanOps_min_size rest _ idx recs h
      | none => exact scanOps_min_size rest _ idx recs h
    | other => exact scanOps_min_size rest _ idx recs h

theorem scanPages_min_size {resolve : Nat → String → Option ResolvedImage} :
    ∀ (pages : List (List PdfOp)) (pageNum idx : Nat) (recs : List ImageRecord),
      (∀ rec ∈ recs, 10 < rec.width ∧ 10 < rec.height) →
      ∀ rec ∈ scanPages resolve pages pageNum idx recs,
        10 < rec.width ∧ 10 < rec.height
  | [], _, _, _, h => h
  | ops :: rest, pageNum, idx, recs, h => by
    show ∀ rec ∈ scanPages resolve rest (pageNum + 1)
      (scanOps resolve pageNum ops [] idx recs).1
      (scanOps resolve pageNum ops [] idx recs).2, _
    exact scanPages_min_size rest _ _ _ (scanOps_min_size ops [] idx recs h)

/-- C3: every record emitted by `extractEmbeddedImages` has width and height
strictly greater than 10 pixels, for every document and resolution oracle —
so an image resolving to width ≤ 10 or height ≤ 10 never appears in the
output, whatever paint-operation kind produced it. -/
theorem extractEmbeddedImages_min_size (pages : List (List PdfOp))
    (resolve : Nat → String → Option ResolvedImage) :
    ∀ rec ∈ extractEmbeddedImages pages resolve,
      10 < rec.width ∧ 10 < rec.height :=
  scanPages_min_size pages 1 0 [] (by simp)

/-- Witness for C3: a document with one large XObject image, one tiny XObject
image and one tiny inline image emits exactly the large record, which the
theorem certifies to be above threshold. -/
theorem extractEmbeddedImages_min_size_witness :
    10 < (20 : Nat) ∧ 10 < (30 : Nat) :=
  extractEmbeddedImages_min_size
    [[PdfOp.paintImageXObject "big", PdfOp.paintImageXObject "tiny",
      PdfOp.paintInlineImageXObject (some ⟨5, 5, "i"⟩)]]
    (fun _ n => if n = "big" then some ⟨20, 30, "d"⟩ else some ⟨4, 40, "e"⟩)
    ⟨1, 1, 20, 30, "d"⟩ (by decide)

/-! ## Panel/document state registry and zoom commands

`_panels : Map<WebviewPanel, state>` is modelled as an association list from
a panel handle (a natural number) to its state record, with `_activePanel` an
optional handle.  Zoom factors are modelled as exact rationals: every value
the source ever stores (multiples of 0.25 within `[0.25, 5]`, starting from
1.0) is a dyadic rational, represented exactly by both the double of the
source and `Rat`. -/

/-- Per-panel state (`{ document, zoom, totalPages, currentPage }`). -/
structure PanelState where
  doc : String
  zoom : Rat
  totalPages : Nat
  currentPage : Nat
deriving DecidableEq

/-- The provider's panel registry: `_panels` and `_activePanel`. -/
structure Registry where
  panels : List (Nat × PanelState)
  activePanel : Option Nat
deriving DecidableEq

/-- `Map.get` on the panel map. -/
def lookupPanel : List (Nat × PanelState) → Nat → Option PanelState
  | [], _ => none
  | e :: rest, h => if e.1 = h then some e.2 else lookupPanel rest h

/-- Updating the state object stored for a panel handle. -/
def setPanel : List (Nat × PanelState) → Nat → PanelState → List (Nat × PanelState)
  | [], _, _ => []
  | e :: rest, h, st => if e.1 = h then (h, st) :: rest else e :: setPanel rest h st

/-- `Map.delete` on the panel map. -/
def deletePanel (panels : List (Nat × PanelState)) (h : Nat) :
    List (Nat × PanelState) :=
  panels.filter (fun e => e.1 != h)

/-- `getActiveState()`: the active panel and its state, provided the active
pointer is set and still present in the map. -/
def getActiveState (r : Registry) : Option (Nat × PanelState) :=
  match r.activePanel with
  | some h =>
    match lookupPanel r.panels h with
    | some st => some (h, st)
    | none => none
  | none => none

/-- Observable outcome of a zoom command: the registry afterwards, whether an
error message was shown to the user, and the zoom message posted to a
webview, if any. -/
structure CommandResult where
  reg : Registry
  errorShown : Bool
  zoomMessage : Option (Nat × Rat)
deriving DecidableEq

/-- `zoomIn()`: silently return when no panel is active; otherwise raise the
active panel's zoom by 0.25 (clamped to 5.0) and post the new scale. -/
def zoomIn (r : Registry) : CommandResult :=
  match getActiveState r with
  | none => ⟨r, false, none⟩
  | some (h, st) =>
    let z := min (st.zoom + 1/4) 5
    ⟨⟨setPanel r.panels h { st with zoom := z }, r.activePanel⟩, false, some (h, z)⟩

/-- `zoomOut()`: as `zoomIn`, lowering by 0.25 and clamping to 0.25. -/
def zoomOut (r : Registry) : CommandResult :=
  match getActiveState r with
  | none => ⟨r, false, none⟩
  | some (h, st) =>
    let z := max (st.zoom - 1/4) (1/4)
    ⟨⟨setPanel r.panels h { st with zoom := z }, r.activePanel⟩, false, some (h, z)⟩

/-- `resetZoom()`: as `zoomIn`, setting the zoom back to 1.0. -/
def resetZoom (r : Registry) : CommandResult :=
  match getActiveState r with
  | none => ⟨r, false, none⟩
  | some (h, st) =>
    ⟨⟨setPanel r.panels h { st with zoom := 1 }, r.activePanel⟩, false, some (h, 1)⟩

/-- The `onDidDispose` handler: remove the panel's record from the map and,
if it was the active pointer, clear the pointer. -/
def disposePanel (r : Registry) (h : Nat) : Registry :=
  ⟨deletePanel r.panels h,
   if r.activePanel = some h then none else r.activePanel⟩

theorem lookupPanel_deletePanel (panels : List (Nat × PanelState)) (h : Nat) :
    lookupPanel (deletePanel panels h) h = none := by
  induction panels with
  | nil => rfl
  | cons e rest ih =>
    simp only [deletePanel, List.filter_cons] at ih ⊢
    by_cases he : e.1 = h
    · simpa [he] using ih
    · simpa [lookupPanel, he] using ih

/-- C4 counterexample: dispose the only (active) panel, then invoke `zoomIn`:
no error message is shown, contradicting the claim that zoom commands report
an error when no panel is active. -/
theorem zoomIn_after_dispose_no_error :
    ¬((zoomIn (disposePanel ⟨[(0, ⟨"a.pdf", 1, 3, 1⟩)], some 0⟩ 0)).errorShown
      = true) := by
  decide

/-- C4 (amended): disposing the active panel removes its record and clears
the active pointer, and while no panel has gained focus every zoom command
(`zoomIn`, `zoomOut`, `resetZoom`) is a silent no-op: it mutates no panel
state, posts no zoom message, and shows no error message (rather than
reporting an error as the spec claims). -/
theorem zoom_after_dispose_silent_noop (r : Registry) (h : Nat)
    (hactive : r.activePanel = some h) :
    lookupPanel (disposePanel r h).panels h = none ∧
    (disposePanel r h).activePanel = none ∧
    zoomIn (disposePanel r h) = ⟨disposePanel r h, false, none⟩ ∧
    zoomOut (disposePanel r h) = ⟨disposePanel r h, false, none⟩ ∧
    resetZoom (disposePanel r h) = ⟨disposePanel r h, false, none⟩ := by
  have hnone : (disposePanel r h).activePanel = none := by
    simp [disposePanel, hactive]
  have hget : getActiveState (disposePanel r h) = none := by
    simp [getActiveState, hnone]
  refine ⟨lookupPanel_deletePanel r.panels h, hnone, ?_, ?_, ?_⟩
  · simp [zoomIn, hget]
  · simp [zoomOut, hget]
  · simp [resetZoom, hget]

/-- Witness for C4 (amended) at a concrete one-panel registry. -/
theorem zoom_after_dispose_silent_noop_witness :
    lookupPanel (disposePanel ⟨[(0, ⟨"a.pdf", 1, 3, 1⟩)], some 0⟩ 0).panels 0 = none ∧
    (disposePanel ⟨[(0, ⟨"a.pdf", 1, 3, 1⟩)], some 0⟩ 0).activePanel = none ∧
    zoomIn (disposePanel ⟨[(0, ⟨"a.pdf", 1, 3, 1⟩)], some 0⟩ 0) =
      ⟨disposePanel ⟨[(0, ⟨"a.pdf", 1, 3, 1⟩)], some 0⟩ 0, false, none⟩ ∧
    zoomOut (disposePanel ⟨[(0, ⟨"a.pdf", 1, 3, 1⟩)], some 0⟩ 0) =
      ⟨disposePanel ⟨[(0, ⟨"a.pdf", 1, 3, 1⟩)], some 0⟩ 0, false, none⟩ ∧
    resetZoom (disposePanel ⟨[(0, ⟨"a.pdf", 1, 3, 1⟩)], some 0⟩ 0) =
      ⟨disposePanel ⟨[(0, ⟨"a.pdf", 1, 3, 1⟩)], some 0⟩ 0, false, none⟩ :=
  zoom_after_dispose_silent_noop ⟨[(0, ⟨"a.pdf", 1, 3, 1⟩)], some 0⟩ 0 rfl

/-! ## Embedded-image saving (`saveExtractedImages`, provider side) -/

/-- One embedded-image payload received from the webview
(`{ index, page, width, height, data }`). -/
structure ImgIn where
  index : Nat
  page : Nat
  width : Nat
  height : Nat
  data : String
deriving DecidableEq

/-- The deterministic target file name
`image_NNN_pageP_WxH.png` of an embedded image. -/
def imageFileName (img : ImgIn) : String :=
  "image_" ++ pad3 img.index ++ "_page" ++ toString img.page ++ "_" ++
    toString img.width ++ "x" ++ toString img.height ++ ".png"

/-- Result of a `saveExtractedImages` run: the directory afterwards, the file
names written (`savedFiles`) and skipped (`skippedFiles`), and the action
labels of each message shown to the user. -/
structure SaveImagesResult where
  fs : Fs
  written : List String
  skipped : List String
  promptOptions : List (List String)
deriving DecidableEq

/-- The image loop of `saveExtractedImages`: `stat` the target name; if it
exists, count the image as skipped and continue without writing; otherwise
write the payload and record the name as saved. -/
def saveImagesLoop : Fs → List ImgIn → List String → List String →
    Fs × List String × List String
  | fs, [], saved, skipped => (fs, saved, skipped)
  | fs, img :: rest, saved, skipped =>
    let fn := imageFileName img
    if containsFs fs fn then saveImagesLoop fs rest saved (skipped ++ [fn])
    else saveImagesLoop (writeFs fs fn img.data) rest (saved ++ [fn]) skipped

/-- `saveExtractedImages(document, panel, images, totalFound)` from
`pdfEditorProvider.ts`: an empty result shows the vector-graphics hint; an
all-skipped run shows the already-exist warning; otherwise the completion
summary is shown.  No message offers an overwrite action. -/
def saveExtractedImages (fs : Fs) (images : List ImgIn) : SaveImagesResult :=
  if images.isEmpty then
    ⟨fs, [], [], [["Screenshot Current Page"]]⟩
  else
    let r := saveImagesLoop fs images [] []
    if r.2.1.length = 0 ∧ 0 < r.2.2.length then
      ⟨r.1, r.2.1, r.2.2, [["Open Folder", "Add to Copilot Chat"]]⟩
    else
      ⟨r.1, r.2.1, r.2.2, [["Open Folder", "Add to Copilot Chat", "Open First Image"]]⟩

theorem lookupFs_some_containsFs :
    ∀ (fs : Fs) (n c : String), lookupFs fs n = some c → containsFs fs n = true
  | [], _, _, h => by simp [lookupFs] at h
  | e :: rest, n, c, h => by
    simp only [lookupFs] at h
    simp only [containsFs, Bool.or_eq_true, decide_eq_true_iff]
    by_cases he : e.1 = n
    · exact Or.inl he
    · rw [if_neg he] at h
      exact Or.inr (lookupFs_some_containsFs rest n c h)

theorem lookupFs_writeFs_ne :
    ∀ (fs : Fs) (k v n : String), k ≠ n →
      lookupFs (writeFs fs k v) n = lookupFs fs n
  | [], k, v, n, hk => by
    simp only [writeFs, lookupFs]
    rw [if_neg hk]
  | e :: rest, k, v, n, hk => by
    simp only [writeFs]
    split
    · next he =>
      subst he
      simp only [lookupFs]
      rw [if_neg hk]
      by_cases hn : e.1 = n
      · exact absurd hn hk
      · rw [if_neg hn]
    · simp only [lookupFs]
      by_cases hn : e.1 = n
      · rw [if_pos hn, if_pos hn]
      · rw [if_neg hn, if_neg hn]
        exact lookupFs_writeFs_ne rest k v n hk

theorem saveImagesLoop_spec (fs0 : Fs) (n c : String) :
    ∀ (images : List ImgIn) (fs : Fs) (saved skipped : List String),
      (∀ m, containsFs fs0 m = true → containsFs fs m = true) →
      lookupFs fs n = some c →
      (∀ m ∈ saved, containsFs fs0 m = false) →
      lookupFs (saveImagesLoop fs images saved skipped).1 n = some c ∧
      (∀ m ∈ (saveImagesLoop fs images saved skipped).2.1, containsFs fs0 m = false) ∧
      (∀ img ∈ images, containsFs fs0 (imageFileName img) = true →
        imageFileName img ∈ (saveImagesLoop fs images saved skipped).2.2) ∧
      (∀ m ∈ skipped, m ∈ (saveImagesLoop fs images saved skipped).2.2)
  | [], fs, saved, skipped, _, hlook, hsaved =>
    ⟨hlook, hsaved, by simp, fun m hm => hm⟩
  | img :: rest, fs, saved, skipped, hmono, hlook, hsaved => by
    simp only [saveImagesLoop]
    split
    · next hex =>
      have hrec := saveImagesLoop_spec fs0 n c rest fs saved
        (skipped ++ [imageFileName img]) hmono hlook hsaved
      refine ⟨hrec.1, hrec.2.1, ?_, ?_⟩
      · intro q hq hq0
        rcases List.mem_cons.mp hq with rfl | hq'
        · exact hrec.2.2.2 _ (List.mem_append_right _ (List.mem_singleton_self _))
        · exact hrec.2.2.1 q hq' hq0
      · intro m hm
        exact hrec.2.2.2 m (List.mem_append_left _ hm)
    · next hex =>
      have hfn0 : containsFs fs0 (imageFileName img) = false := by
        cases hc0 : containsFs fs0 (imageFileName img) with
        | false => rfl
        | true => exact absurd (hmono _ hc0) hex
      have hne : imageFileName img ≠ n := by
        intro heq
        exact hex (heq ▸ lookupFs_some_containsFs fs n c hlook)
      have hrec := saveImagesLoop_spec fs0 n c rest
        (writeFs fs (imageFileName img) img.data) (saved ++ [imageFileName img]) skipped
        (fun m hm => (containsFs_writeFs _ _ _ _).mpr (Or.inl (hmono m hm)))
        (by rw [lookupFs_writeFs_ne fs _ img.data n hne]; exact hlook)
        (by
          intro m hm
          rcases List.mem_append.mp hm with hm | hm
          · exact hsaved m hm
          · rw [List.mem_singleton.mp hm]
            exact hfn0)
      refine ⟨hrec.1, hrec.2.1, ?_, hrec.2.2.2⟩
      intro q hq hq0
      rcases List.mem_cons.mp hq with rfl | hq'
      · rw [hq0] at hfn0
        exact absurd hfn0 (by decide)
      · exact hrec.2.2.1 q hq' hq0

/-- C10: `saveExtractedImages` never overwrites: every pre-existing file's
content is unchanged by a run; an image whose deterministic target name
already exists is counted in `skippedFiles` and its name is never among the
written files; and no message shown to the user offers an "Overwrite All"
action. -/
theorem saveExtractedImages_no_overwrite (fs : Fs) (images : List ImgIn)
    (n c : String) (hpre : lookupFs fs n = some c) :
    lookupFs (saveExtractedImages fs images).fs n = some c ∧
    (∀ img ∈ images, containsFs fs (imageFileName img) = true →
      imageFileName img ∈ (saveExtractedImages fs images).skipped ∧
      imageFileName img ∉ (saveExtractedImages fs images).written) ∧
    ∀ opts ∈ (saveExtractedImages fs images).promptOptions,
      "Overwrite All" ∉ opts := by
  by_cases himg : images.isEmpty = true
  · have hi : images = [] := by simpa using himg
    subst hi
    simp only [saveExtractedImages, List.isEmpty_nil, if_true]
    refine ⟨hpre, by simp, ?_⟩
    intro opts hopts
    rw [List.mem_singleton.mp hopts]
    decide
  · have hspec := saveImagesLoop_spec fs n c images fs [] []
      (fun m hm => hm) hpre (by simp)
    simp only [saveExtractedImages]
    rw [if_neg himg]
    split
    · refine ⟨hspec.1, ?_, ?_⟩
      · intro img hi hc
        refine ⟨hspec.2.2.1 img hi hc, fun habs => ?_⟩
        have hfalse := hspec.2.1 _ habs
        rw [hc] at hfalse
        exact absurd hfalse (by decide)
      · intro opts hopts
        rw [List.mem_singleton.mp hopts]
        decide
    · refine ⟨hspec.1, ?_, ?_⟩
      · intro img hi hc
        refine ⟨hspec.2.2.1 img hi hc, fun habs => ?_⟩
        have hfalse := hspec.2.1 _ habs
        rw [hc] at hfalse
        exact absurd hfalse (by decide)
      · intro opts hopts
        rw [List.mem_singleton.mp hopts]
        decide

/-- Witness for C10: one image whose target already exists is skipped, the
old content survives, and the warning offers no overwrite action. -/
theorem saveExtractedImages_no_overwrite_witness :
    lookupFs (saveExtractedImages [("image_001_page1_20x30.png", "old")]
        [⟨1, 1, 20, 30, "new"⟩]).fs "image_001_page1_20x30.png" = some "old" ∧
    (imageFileName ⟨1, 1, 20, 30, "new"⟩ ∈
        (saveExtractedImages [("image_001_page1_20x30.png", "old")]
          [⟨1, 1, 20, 30, "new"⟩]).skipped ∧
      imageFileName ⟨1, 1, 20, 30, "new"⟩ ∉
        (saveExtractedImages [("image_001_page1_20x30.png", "old")]
          [⟨1, 1, 20, 30, "new"⟩]).written) ∧
    "Overwrite All" ∉ ["Open Folder", "Add to Copilot Chat"] :=
  ⟨(saveExtractedImages_no_overwrite [("image_001_page1_20x30.png", "old")]
      [⟨1, 1, 20, 30, "new"⟩] "image_001_page1_20x30.png" "old" (by decide)).1,
   (saveExtractedImages_no_overwrite [("image_001_page1_20x30.png", "old")]
      [⟨1, 1, 20, 30, "new"⟩] "image_001_page1_20x30.png" "old" (by decide)).2.1
      ⟨1, 1, 20, 30, "new"⟩ (by decide) (by decide),
   (saveExtractedImages_no_overwrite [("image_001_page1_20x30.png", "old")]
      [⟨1, 1, 20, 30, "new"⟩] "image_001_page1_20x30.png" "old" (by decide)).2.2
      ["Open Folder", "Add to Copilot Chat"] (by decide)⟩

end PdfToolkit
